import Mathlib

/-!
Shallow embedding of the `TileLoader` tile-addressing and caching subsystem
(`src/tileloader.cpp`, `include/gazebo_satellite/tileloader.h`).

Conventions used throughout:
* C++ `int` / `unsigned int` arithmetic is 32 bits wide; where overflow can
  actually occur in the source (the `1 << zoom` shifts of `maxTiles` and
  `latLonToTileCoords`) it is modelled by explicit two's-complement
  wrap-around (`wrap32`).  The small additive index arithmetic of the grid
  loop is modelled on unbounded `Int`.
* C++ `double` values are modelled as real numbers (`ℝ`).
* Fallible operations (C++ `throw`) return `Except TLError`.  The message
  strings of the C++ exceptions (which interpolate the offending value via
  `std::to_string`) are elided; only the exception class is kept.
* The filesystem and the HTTP client are external collaborators; they are
  modelled as oracles (`Env`) and the observable effects of a `start()` run
  (indices attempted, requests issued, files written, errors reported) are
  collected in a `StartResult`.
-/

/-! ## 32-bit integer model -/

/-- Two's-complement wrap-around of an integer to the range
`[-2^31, 2^31)`, the value set of a 32-bit C++ `int`. -/
def wrap32 (i : Int) : Int := (i + 2 ^ 31) % 2 ^ 32 - 2 ^ 31

/-- The C++ expression `1 << zoom` at type `int` (32-bit two's complement).
Source: `tileloader.cpp`, used in `maxTiles` and `latLonToTileCoords`. -/
def shlInt (zoom : Nat) : Int := wrap32 (2 ^ zoom)

/-- `TileLoader::maxTiles`: `return (1 << zoom_) - 1;` with `int`
arithmetic. -/
def maxTiles (zoom : Nat) : Int := wrap32 (shlInt zoom - 1)

/-- `unsigned int n = (1 << zoom);` in `TileLoader::latLonToTileCoords`:
the `int` shift result converted to `unsigned int` (reduction mod `2^32`). -/
def nGrid (zoom : Nat) : Nat := ((shlInt zoom) % 2 ^ 32).toNat

theorem wrap32_eq_self {i : Int} (h1 : -2 ^ 31 ≤ i) (h2 : i < 2 ^ 31) :
    wrap32 i = i := by
  unfold wrap32
  omega

theorem maxTiles_eq {zoom : Nat} (h : zoom ≤ 31) :
    maxTiles zoom = 2 ^ zoom - 1 := by
  have hle : (2 : Int) ^ zoom ≤ 2 ^ 31 := by
    exact_mod_cast Nat.pow_le_pow_right (by norm_num) h
  have hpos : (0 : Int) < 2 ^ zoom := by positivity
  unfold maxTiles shlInt wrap32
  omega

theorem nGrid_eq {zoom : Nat} (h : zoom ≤ 31) : nGrid zoom = 2 ^ zoom := by
  have hle : (2 : Int) ^ zoom ≤ 2 ^ 31 := by
    exact_mod_cast Nat.pow_le_pow_right (by norm_num) h
  have hpos : (0 : Int) < 2 ^ zoom := by positivity
  have hmod : ((shlInt zoom) % 2 ^ 32) = 2 ^ zoom := by
    unfold shlInt wrap32
    omega
  unfold nGrid
  rw [hmod]
  exact_mod_cast rfl

/-! ## Decimal string representation

`cachedNameForTile` renders tile indices with `std::ostringstream`
(`os << x`), and `uriForTile` uses `std::to_string`; both produce the
ordinary decimal representation of the integer.  These are modelled
explicitly so that injectivity of cache names can be proved. -/

/-- The character for a single decimal digit. -/
def digitChar (d : Nat) : Char := Char.ofNat (48 + d)

/-- Decimal representation of a natural number (as produced by C++ stream
output / `std::to_string`). -/
def natDecimal (n : Nat) : String :=
  if n = 0 then "0" else String.mk ((Nat.digits 10 n).reverse.map digitChar)

/-- Decimal representation of an `int` (sign followed by digits). -/
def intDecimal (i : Int) : String :=
  if i < 0 then "-" ++ natDecimal i.natAbs else natDecimal i.natAbs

theorem string_data_mk (l : List Char) : (String.mk l).data = l := rfl

theorem digitChar_injOn {d₁ d₂ : Nat} (h₁ : d₁ < 10) (h₂ : d₂ < 10)
    (h : digitChar d₁ = digitChar d₂) : d₁ = d₂ := by
  have key : ∀ a, a < 10 → ∀ b, b < 10 → digitChar a = digitChar b → a = b := by decide
  exact key d₁ h₁ d₂ h₂ h

theorem digitChar_ne_dash {d : Nat} (h : d < 10) : digitChar d ≠ '-' := by
  have key : ∀ a, a < 10 → digitChar a ≠ '-' := by decide
  exact key d h

theorem digitChar_ne_underscore {d : Nat} (h : d < 10) : digitChar d ≠ '_' := by
  have key : ∀ a, a < 10 → digitChar a ≠ '_' := by decide
  exact key d h

theorem mapDigitChar_inj : ∀ l₁ l₂ : List Nat, (∀ d ∈ l₁, d < 10) →
    (∀ d ∈ l₂, d < 10) → l₁.map digitChar = l₂.map digitChar → l₁ = l₂ := by
  intro l₁
  induction l₁ with
  | nil => intro l₂ _ _ h; cases l₂ <;> simp_all
  | cons a t ih =>
    intro l₂ h₁ h₂ h
    cases l₂ with
    | nil => simp_all
    | cons b t₂ =>
      simp only [List.map_cons, List.cons.injEq] at h
      have ha : a < 10 := h₁ a (by simp)
      have hb : b < 10 := h₂ b (by simp)
      have hab : a = b := digitChar_injOn ha hb h.1
      have ht : t = t₂ := ih t₂ (fun d hd => h₁ d (by simp [hd]))
        (fun d hd => h₂ d (by simp [hd])) h.2
      rw [hab, ht]

theorem natDecimal_data (n : Nat) (hn : n ≠ 0) :
    (natDecimal n).data = (Nat.digits 10 n).reverse.map digitChar := by
  rw [natDecimal, if_neg hn, string_data_mk]

theorem natDecimal_inj : ∀ n₁ n₂ : Nat, natDecimal n₁ = natDecimal n₂ → n₁ = n₂ := by
  have key : ∀ n₁ n₂ : Nat, n₁ ≠ 0 → n₂ ≠ 0 →
      natDecimal n₁ = natDecimal n₂ → n₁ = n₂ := by
    intro n₁ n₂ h₁ h₂ h
    have hdata := congrArg String.data h
    rw [natDecimal_data n₁ h₁, natDecimal_data n₂ h₂] at hdata
    have hmap := mapDigitChar_inj (Nat.digits 10 n₁).reverse (Nat.digits 10 n₂).reverse
      (fun d hd => Nat.digits_lt_base (by norm_num) (List.mem_reverse.mp hd))
      (fun d hd => Nat.digits_lt_base (by norm_num) (List.mem_reverse.mp hd)) hdata
    have hdig : Nat.digits 10 n₁ = Nat.digits 10 n₂ := by
      have := congrArg List.reverse hmap
      simpa using this
    calc n₁ = Nat.ofDigits 10 (Nat.digits 10 n₁) := (Nat.ofDigits_digits 10 n₁).symm
      _ = Nat.ofDigits 10 (Nat.digits 10 n₂) := by rw [hdig]
      _ = n₂ := Nat.ofDigits_digits 10 n₂
  have zero_case : ∀ n : Nat, n ≠ 0 → natDecimal n ≠ "0" := by
    intro n hn hcontra
    have hdata := congrArg String.data hcontra
    rw [natDecimal_data n hn] at hdata
    have h0 : ("0" : String).data = ['0'] := rfl
    rw [h0] at hdata
    have hd0 : ('0' : Char) = digitChar 0 := rfl
    have hrev : (Nat.digits 10 n).reverse = [0] := by
      apply mapDigitChar_inj
      · exact fun d hd => Nat.digits_lt_base (by norm_num) (List.mem_reverse.mp hd)
      · intro d hd; simp at hd; omega
      · rw [hdata, List.map_cons, List.map_nil, hd0]
    have hdig : Nat.digits 10 n = [0] := by
      have := congrArg List.reverse hrev
      simpa using this
    have : n = Nat.ofDigits 10 [0] := by
      rw [← hdig]; exact (Nat.ofDigits_digits 10 n).symm
    simp [Nat.ofDigits] at this
    exact hn this
  intro n₁ n₂ h
  by_cases h₁ : n₁ = 0 <;> by_cases h₂ : n₂ = 0
  · omega
  · exfalso; apply zero_case n₂ h₂; rw [← h, h₁]; rfl
  · exfalso; apply zero_case n₁ h₁; rw [h, h₂]; rfl
  · exact key n₁ n₂ h₁ h₂ h

theorem natDecimal_chars {n : Nat} :
    ∀ c ∈ (natDecimal n).data, ∃ d, d < 10 ∧ c = digitChar d := by
  intro c hc
  by_cases hn : n = 0
  · subst hn
    have h0 : (natDecimal 0).data = ['0'] := rfl
    rw [h0] at hc
    refine ⟨0, by norm_num, ?_⟩
    have : c = '0' := by simpa using hc
    rw [this]; rfl
  · rw [natDecimal_data n hn] at hc
    rw [List.mem_map] at hc
    obtain ⟨d, hd, hcd⟩ := hc
    exact ⟨d, Nat.digits_lt_base (by norm_num) (List.mem_reverse.mp hd), hcd.symm⟩

theorem natDecimal_head_digit (n : Nat) :
    ∃ d, d < 10 ∧ (natDecimal n).data.head? = some (digitChar d) := by
  by_cases hn : n = 0
  · subst hn
    exact ⟨0, by norm_num, rfl⟩
  · have hne : Nat.digits 10 n ≠ [] := Nat.digits_ne_nil_iff_ne_zero.mpr hn
    have hrevne : (Nat.digits 10 n).reverse ≠ [] := by simpa using hne
    obtain ⟨d, t, ht⟩ := List.exists_cons_of_ne_nil hrevne
    refine ⟨d, ?_, ?_⟩
    · exact Nat.digits_lt_base (by norm_num)
        (List.mem_reverse.mp (by rw [ht]; simp))
    · rw [natDecimal_data n hn, ht, List.map_cons]
      rfl

theorem intDecimal_chars {i : Int} :
    ∀ c ∈ (intDecimal i).data, c = '-' ∨ ∃ d, d < 10 ∧ c = digitChar d := by
  intro c hc
  unfold intDecimal at hc
  split at hc
  · rw [String.data_append] at hc
    rcases List.mem_append.mp hc with h | h
    · left; simpa using h
    · right; exact natDecimal_chars c h
  · right; exact natDecimal_chars c hc

theorem intDecimal_no_underscore {i : Int} :
    ∀ c ∈ (intDecimal i).data, c ≠ '_' := by
  intro c hc
  rcases intDecimal_chars c hc with h | ⟨d, hd, hcd⟩
  · rw [h]; decide
  · rw [hcd]; exact digitChar_ne_underscore hd

theorem intDecimal_inj : ∀ i₁ i₂ : Int, intDecimal i₁ = intDecimal i₂ → i₁ = i₂ := by
  intro i₁ i₂ h
  unfold intDecimal at h
  split at h <;> split at h
  case isTrue.isTrue h₁ h₂ =>
    have hdata := congrArg String.data h
    simp only [String.data_append] at hdata
    have htail : (natDecimal i₁.natAbs).data = (natDecimal i₂.natAbs).data := by
      simpa using hdata
    have hstr : natDecimal i₁.natAbs = natDecimal i₂.natAbs := by
      cases hq₁ : natDecimal i₁.natAbs with
      | mk l₁ =>
        cases hq₂ : natDecimal i₂.natAbs with
        | mk l₂ =>
          rw [hq₁, hq₂] at htail
          rw [string_data_mk, string_data_mk] at htail
          rw [htail]
    have := natDecimal_inj _ _ hstr
    omega
  case isTrue.isFalse h₁ h₂ =>
    exfalso
    obtain ⟨d, hd, hdig⟩ := natDecimal_head_digit i₂.natAbs
    have hh := congrArg (fun s => s.data.head?) h
    simp only at hh
    have hhl : (("-" ++ natDecimal i₁.natAbs)).data.head? = some '-' := by
      rw [String.data_append]
      rfl
    rw [hhl, hdig] at hh
    have : ('-' : Char) = digitChar d := by injection hh
    exact digitChar_ne_dash hd this.symm
  case isFalse.isTrue h₁ h₂ =>
    exfalso
    obtain ⟨d, hd, hdig⟩ := natDecimal_head_digit i₁.natAbs
    have hh := congrArg (fun s => s.data.head?) h
    simp only at hh
    have hhl : (("-" ++ natDecimal i₂.natAbs)).data.head? = some '-' := by
      rw [String.data_append]
      rfl
    rw [hhl, hdig] at hh
    have : digitChar d = '-' := by injection hh
    exact digitChar_ne_dash hd this
  case isFalse.isFalse h₁ h₂ =>
    have := natDecimal_inj _ _ h
    omega

/-! ## Data model -/

/-- The error classes thrown by the C++ code: `std::invalid_argument` from
`latLonToTileCoords` and `std::runtime_error` from the constructor's
package-path check.  Message strings are elided (see file header). -/
inductive TLError where
  | invalidArgument : TLError
  | runtimeError : TLError
deriving DecidableEq, Repr

/-- `TileLoader::MapTile`: a tile successfully resolved to a local file.
Fields `x_`, `y_`, `z_` are C++ `int`; `path_` is the image path. -/
structure MapTile where
  x : Int
  y : Int
  z : Int
  path : String
deriving DecidableEq, Repr

/-- The state of a `TileLoader` object (member variables of the C++ class).
`latitude_`, `longitude_` and the origin offsets are `double`, modelled as
real numbers; `zoom_` is `unsigned int` (a `Nat`); `blocks_`,
`center_tile_x_`, `center_tile_y_` are `int`. -/
structure TileLoader where
  latitude : ℝ
  longitude : ℝ
  zoom : Nat
  blocks : Int
  center_tile_x : Int
  center_tile_y : Int
  origin_offset_x : ℝ
  origin_offset_y : ℝ
  cache_path : String
  object_uri : String
  tiles : List MapTile

/-- Response of the synchronous HTTP GET (`cpr::Get`): status code, body
bytes (`r.text`), and the final resolved URL (`r.url`). -/
structure HttpResponse where
  status_code : Int
  text : String
  url : String

/-- External collaborators of `start()`: the filesystem existence check on
the state of the disk before the call (`exists0`), and the HTTP client
(`get`).  Both are deterministic oracles. -/
structure Env where
  exists0 : String → Bool
  get : String → HttpResponse

/-- The observable outcome of one `start()` run: the tile list built, plus
traces of every side effect in the order it happened — loop iterations
(`attempted`), network requests issued (`requests`, index with its URL),
files written (`written`, path with bytes), and failures reported through
`gzerr` (`errors`, URL with status code). -/
structure StartResult where
  tiles : List MapTile
  attempted : List (Int × Int)
  requests : List ((Int × Int) × String)
  written : List (String × String)
  errors : List (String × Int)
deriving DecidableEq, Repr

/-! ## Cache keyspace -/

/-- `TileLoader::cachedNameForTile`: `os << "x" << x << "_y" << y << "_z"
<< z << ".jpg"`. -/
def cachedNameForTile (x y z : Int) : String :=
  "x" ++ intDecimal x ++ "_y" ++ intDecimal y ++ "_z" ++ intDecimal z ++ ".jpg"

/-- `TileLoader::cachedPathForTile`: `cache_path_ / cachedNameForTile(x,y,z)`
(boost path concatenation inserts the separator). -/
def TileLoader.cachedPathForTile (tl : TileLoader) (x y z : Int) : String :=
  tl.cache_path ++ "/" ++ cachedNameForTile x y z

/-- Splitting an append at a distinguished separator character: if neither
left part contains the separator and both right parts begin with it, the
parts agree. -/
theorem append_sep_inj (c : Char) :
    ∀ l₁ l₂ t₁ t₂ : List Char, (∀ a ∈ l₁, a ≠ c) → (∀ a ∈ l₂, a ≠ c) →
      l₁ ++ c :: t₁ = l₂ ++ c :: t₂ → l₁ = l₂ ∧ t₁ = t₂ := by
  intro l₁
  induction l₁ with
  | nil =>
    intro l₂ t₁ t₂ _ h₂ h
    cases l₂ with
    | nil => simpa using h
    | cons b l₂' =>
      exfalso
      simp only [List.nil_append, List.cons_append, List.cons.injEq] at h
      exact h₂ b (by simp) h.1.symm
  | cons a l₁' ih =>
    intro l₂ t₁ t₂ h₁ h₂ h
    cases l₂ with
    | nil =>
      exfalso
      simp only [List.cons_append, List.nil_append, List.cons.injEq] at h
      exact h₁ a (by simp) h.1
    | cons b l₂' =>
      simp only [List.cons_append, List.cons.injEq] at h
      have := ih l₂' t₁ t₂ (fun d hd => h₁ d (by simp [hd]))
        (fun d hd => h₂ d (by simp [hd])) h.2
      exact ⟨by rw [h.1, this.1], this.2⟩

/-- Strings with equal character data are equal. -/
theorem string_eq_of_data_eq {s₁ s₂ : String} (h : s₁.data = s₂.data) :
    s₁ = s₂ := by
  cases s₁ with
  | mk l₁ =>
    cases s₂ with
    | mk l₂ =>
      rw [string_data_mk, string_data_mk] at h
      rw [h]

/-- Two cache file names at the same zoom agree only for the same tile
index. -/
theorem cachedNameForTile_inj {x₁ y₁ x₂ y₂ z : Int}
    (h : cachedNameForTile x₁ y₁ z = cachedNameForTile x₂ y₂ z) :
    x₁ = x₂ ∧ y₁ = y₂ := by
  have hdata := congrArg String.data h
  simp only [cachedNameForTile, String.data_append] at hdata
  simp only [List.append_assoc, List.cons_append, List.nil_append,
    List.singleton_append, List.cons.injEq, true_and] at hdata
  have h1 := append_sep_inj '_' (intDecimal x₁).data (intDecimal x₂).data _ _
    intDecimal_no_underscore intDecimal_no_underscore hdata
  have hxeq := intDecimal_inj _ _ (string_eq_of_data_eq h1.1)
  have h2' := h1.2
  simp only [List.cons.injEq, true_and] at h2'
  have h2 := append_sep_inj '_' (intDecimal y₁).data (intDecimal y₂).data _ _
    intDecimal_no_underscore intDecimal_no_underscore h2'
  have hyeq := intDecimal_inj _ _ (string_eq_of_data_eq h2.1)
  exact ⟨hxeq, hyeq⟩

/-- Cache path injectivity for a fixed loader and zoom. -/
theorem cachedPathForTile_inj {tl : TileLoader} {x₁ y₁ x₂ y₂ z : Int}
    (h : tl.cachedPathForTile x₁ y₁ z = tl.cachedPathForTile x₂ y₂ z) :
    x₁ = x₂ ∧ y₁ = y₂ := by
  apply cachedNameForTile_inj (z := z)
  have hdata := congrArg String.data h
  simp only [TileLoader.cachedPathForTile, String.data_append,
    List.append_assoc] at hdata
  have htail := List.append_cancel_left hdata
  have htail2 := List.append_cancel_left htail
  exact string_eq_of_data_eq htail2

/-! ## URL resolution

`replaceRegex` loops `boost::regex_search` over the literal case-insensitive
pattern `\{x\}` and splices the replacement in, continuing after the match.
It is modelled as a single left-to-right scan replacing each occurrence of
`{c}` / `{C}` and continuing after the spliced replacement.  (Caveat,
relevant to multi-occurrence templates only: the C++ loop passes
`what.position()` — an offset relative to the moving search start — to
`std::string::replace`, which expects an absolute index, and keeps using
iterators invalidated by the in-place edit; occurrences after the first are
therefore corrupted, with formally undefined behaviour.  The model below is
the behaviour for templates in which each placeholder occurs at most once,
which is also the loop's evident intent.) -/

/-- Replace every `{lc}` / `{uc}` occurrence by `rep`, scanning left to
right. -/
def substPH (lc uc : Char) (rep : List Char) : List Char → List Char
  | a :: b :: c :: rest =>
    if a = '{' ∧ (b = lc ∨ b = uc) ∧ c = '}' then rep ++ substPH lc uc rep rest
    else a :: substPH lc uc rep (b :: c :: rest)
  | l => l
termination_by l => l.length

/-- `TileLoader::uriForTile`: substitute `{x}`, `{y}`, `{z}`
(case-insensitively, in that order) in the object URI by the decimal
values of `x`, `y` and `zoom_`. -/
def TileLoader.uriForTile (tl : TileLoader) (x y : Int) : String :=
  let o₁ := substPH 'x' 'X' (intDecimal x).data tl.object_uri.data
  let o₂ := substPH 'y' 'Y' (intDecimal y).data o₁
  let o₃ := substPH 'z' 'Z' (natDecimal tl.zoom).data o₂
  String.mk o₃

/-! ## The grid loading loop -/

/-- The inclusive integer range `[lo, hi]` in ascending order. -/
def intRange (lo hi : Int) : List Int :=
  (List.range (hi + 1 - lo).toNat).map (fun i : Nat => lo + (i : Int))

/-- The tile indices `start()` iterates over: `y` from `min_y` to `max_y`
in the outer loop, `x` from `min_x` to `max_x` in the inner loop
(`tileloader.cpp` lines 94–101). -/
def TileLoader.attemptList (tl : TileLoader) : List (Int × Int) :=
  let min_x := max 0 (tl.center_tile_x - tl.blocks)
  let min_y := max 0 (tl.center_tile_y - tl.blocks)
  let max_x := min (maxTiles tl.zoom) (tl.center_tile_x + tl.blocks)
  let max_y := min (maxTiles tl.zoom) (tl.center_tile_y + tl.blocks)
  (intRange min_y max_y).flatMap
    (fun y => (intRange min_x max_x).map (fun x => (x, y)))

/-- Whether a file exists at `p` during the loop: it existed before the
call, or one of the loop's own iterations has written it. -/
def fsExists (env : Env) (written : List (String × String)) (p : String) : Bool :=
  env.exists0 p || written.any (fun w => w.1 == p)

/-- One iteration of the loading loop (`tileloader.cpp` lines 102–128):
check the cache, otherwise issue the blocking GET; on HTTP 200 write the
body to the cache path and append the tile, otherwise report the failure. -/
def TileLoader.processTile (tl : TileLoader) (env : Env) (st : StartResult)
    (xy : Int × Int) : StartResult :=
  let full_path := tl.cachedPathForTile xy.1 xy.2 tl.zoom
  let st := { st with attempted := st.attempted ++ [xy] }
  if fsExists env st.written full_path then
    { st with tiles := st.tiles ++ [⟨xy.1, xy.2, tl.zoom, full_path⟩] }
  else
    let url := tl.uriForTile xy.1 xy.2
    let r := env.get url
    let st := { st with requests := st.requests ++ [(xy, url)] }
    if r.status_code = 200 then
      { st with
        written := st.written ++ [(full_path, r.text)]
        tiles := st.tiles ++ [⟨xy.1, xy.2, tl.zoom, full_path⟩] }
    else
      { st with errors := st.errors ++ [(r.url, r.status_code)] }

/-- The effects of one `start()` call, beginning from the empty result (the
call starts with `abort()`, which clears the tile list). -/
def TileLoader.startRun (tl : TileLoader) (env : Env) : StartResult :=
  tl.attemptList.foldl (tl.processTile env) ⟨[], [], [], [], []⟩

/-- `TileLoader::start`: the updated object (only `tiles_` changes)
together with the effect trace. -/
def TileLoader.start (tl : TileLoader) (env : Env) : TileLoader × StartResult :=
  let res := tl.startRun env
  ({ tl with tiles := res.tiles }, res)

/-- `TileLoader::abort`: `tiles_.clear();`. -/
def TileLoader.abort (tl : TileLoader) : TileLoader :=
  { tl with tiles := [] }

/-! ### Iteration-order lemmas -/

theorem mem_intRange {lo hi a : Int} : a ∈ intRange lo hi ↔ lo ≤ a ∧ a ≤ hi := by
  unfold intRange
  simp only [List.mem_map, List.mem_range]
  constructor
  · rintro ⟨i, hi', rfl⟩
    omega
  · intro ⟨h₁, h₂⟩
    exact ⟨(a - lo).toNat, by omega, by omega⟩

theorem pairwise_intRange {lo hi : Int} : (intRange lo hi).Pairwise (· < ·) := by
  unfold intRange
  rw [List.pairwise_map]
  exact (List.pairwise_lt_range _).imp (by omega)

theorem mem_attemptList {tl : TileLoader} {x y : Int} :
    (x, y) ∈ tl.attemptList ↔
      (max 0 (tl.center_tile_x - tl.blocks) ≤ x ∧
       x ≤ min (maxTiles tl.zoom) (tl.center_tile_x + tl.blocks) ∧
       max 0 (tl.center_tile_y - tl.blocks) ≤ y ∧
       y ≤ min (maxTiles tl.zoom) (tl.center_tile_y + tl.blocks)) := by
  unfold TileLoader.attemptList
  simp only [List.mem_flatMap, List.mem_map, Prod.mk.injEq]
  constructor
  · rintro ⟨y', hy', x', hx', rfl, rfl⟩
    have hy := mem_intRange.mp hy'
    have hx := mem_intRange.mp hx'
    exact ⟨hx.1, hx.2, hy.1, hy.2⟩
  · intro ⟨h₁, h₂, h₃, h₄⟩
    exact ⟨y, mem_intRange.mpr ⟨h₃, h₄⟩, x, mem_intRange.mpr ⟨h₁, h₂⟩, rfl, rfl⟩

/-- The row-major (outer `y` ascending, inner `x` ascending) ordering
relation on tile indices. -/
def rowMajorLt (p q : Int × Int) : Prop :=
  p.2 < q.2 ∨ (p.2 = q.2 ∧ p.1 < q.1)

theorem pairwise_attemptList (tl : TileLoader) :
    tl.attemptList.Pairwise rowMajorLt := by
  unfold TileLoader.attemptList
  rw [List.pairwise_flatMap]
  constructor
  · intro y _
    rw [List.pairwise_map]
    exact pairwise_intRange.imp (fun h => Or.inr ⟨rfl, h⟩)
  · apply pairwise_intRange.imp
    intro y₁ y₂ h p hp q hq
    simp only [List.mem_map] at hp hq
    obtain ⟨x₁, _, rfl⟩ := hp
    obtain ⟨x₂, _, rfl⟩ := hq
    exact Or.inl h

theorem nodup_attemptList (tl : TileLoader) : tl.attemptList.Nodup := by
  apply (pairwise_attemptList tl).imp
  intro p q h
  rcases h with h | ⟨_, h⟩ <;>
    exact fun hc => by rw [hc] at h; exact lt_irrefl _ h

/-! ### Loop characterization

Because cache file names are injective in the tile index (at fixed zoom),
no iteration's write can change the cache-existence answer seen by a later
iteration, and the whole loop is equivalent to a per-index map over the
pre-call state of the world. -/

/-- Abbreviation: the cache path `start()` uses for index `xy`. -/
def TileLoader.pathOf (tl : TileLoader) (xy : Int × Int) : String :=
  tl.cachedPathForTile xy.1 xy.2 tl.zoom

/-- Abbreviation: the `MapTile` appended for a resolved index `xy`. -/
def TileLoader.tileOf (tl : TileLoader) (xy : Int × Int) : MapTile :=
  ⟨xy.1, xy.2, tl.zoom, tl.pathOf xy⟩

/-- The tile (if any) index `xy` contributes to `tiles()`: it resolves iff
it was cached before the call or its fetch returns HTTP 200. -/
def TileLoader.tileResult (tl : TileLoader) (env : Env) (xy : Int × Int) :
    Option MapTile :=
  if env.exists0 (tl.pathOf xy) ∨
      (env.get (tl.uriForTile xy.1 xy.2)).status_code = 200 then
    some (tl.tileOf xy)
  else none

/-- The network request (if any) issued for index `xy`. -/
def TileLoader.requestResult (tl : TileLoader) (env : Env) (xy : Int × Int) :
    Option ((Int × Int) × String) :=
  if env.exists0 (tl.pathOf xy) then none
  else some (xy, tl.uriForTile xy.1 xy.2)

/-- The cache file (if any) written for index `xy`. -/
def TileLoader.writeResult (tl : TileLoader) (env : Env) (xy : Int × Int) :
    Option (String × String) :=
  if ¬ env.exists0 (tl.pathOf xy) ∧
      (env.get (tl.uriForTile xy.1 xy.2)).status_code = 200 then
    some (tl.pathOf xy, (env.get (tl.uriForTile xy.1 xy.2)).text)
  else none

/-- The failure report (if any) emitted for index `xy`. -/
def TileLoader.errorResult (tl : TileLoader) (env : Env) (xy : Int × Int) :
    Option (String × Int) :=
  if ¬ env.exists0 (tl.pathOf xy) ∧
      (env.get (tl.uriForTile xy.1 xy.2)).status_code ≠ 200 then
    some ((env.get (tl.uriForTile xy.1 xy.2)).url,
          (env.get (tl.uriForTile xy.1 xy.2)).status_code)
  else none

theorem fsExists_of_fresh {env : Env} {written : List (String × String)}
    {p : String} (h : ∀ w ∈ written, w.1 ≠ p) :
    fsExists env written p = env.exists0 p := by
  unfold fsExists
  have : written.any (fun w => w.1 == p) = false := by
    rw [List.any_eq_false]
    intro w hw
    simpa using h w hw
  rw [this, Bool.or_false]


theorem filterMap_cons_toList {α β : Type} (f : α → Option β) (a : α) (l : List α) :
    (a :: l).filterMap f = (f a).toList ++ l.filterMap f := by
  cases h : f a <;> simp [List.filterMap_cons, h]

theorem writeResult_fst {tl : TileLoader} {env : Env} {xy : Int × Int}
    {w : String × String} (h : tl.writeResult env xy = some w) :
    w.1 = tl.pathOf xy := by
  unfold TileLoader.writeResult at h
  split at h
  · cases h; rfl
  · cases h

/-- A single loop iteration, described by the static per-index outcome
functions — valid whenever no prior write hit this index's cache path. -/
theorem processTile_eq (tl : TileLoader) (env : Env) (st : StartResult)
    (xy : Int × Int) (hfresh : ∀ w ∈ st.written, w.1 ≠ tl.pathOf xy) :
    tl.processTile env st xy =
      { tiles := st.tiles ++ (tl.tileResult env xy).toList
        attempted := st.attempted ++ [xy]
        requests := st.requests ++ (tl.requestResult env xy).toList
        written := st.written ++ (tl.writeResult env xy).toList
        errors := st.errors ++ (tl.errorResult env xy).toList } := by
  have hpath : fsExists env st.written (tl.cachedPathForTile xy.1 xy.2 tl.zoom)
      = env.exists0 (tl.cachedPathForTile xy.1 xy.2 tl.zoom) :=
    fsExists_of_fresh hfresh
  unfold TileLoader.processTile
  dsimp only
  rw [hpath]
  cases hex : env.exists0 (tl.cachedPathForTile xy.1 xy.2 tl.zoom) with
  | true =>
    have hex' : env.exists0 (tl.pathOf xy) = true := hex
    simp [TileLoader.tileResult, TileLoader.requestResult, TileLoader.writeResult,
      TileLoader.errorResult, hex, hex', TileLoader.pathOf, TileLoader.tileOf]
  | false =>
    have hex' : env.exists0 (tl.pathOf xy) = false := hex
    by_cases hst : (env.get (tl.uriForTile xy.1 xy.2)).status_code = 200
    · simp [TileLoader.tileResult, TileLoader.requestResult, TileLoader.writeResult,
        TileLoader.errorResult, hex, hex', hst, TileLoader.pathOf, TileLoader.tileOf]
    · simp [TileLoader.tileResult, TileLoader.requestResult, TileLoader.writeResult,
        TileLoader.errorResult, hex, hex', hst, TileLoader.pathOf, TileLoader.tileOf]

/-- The whole loop, described index by index by the static outcome
functions.  The cache paths of the processed indices must be pairwise
distinct (which holds for `attemptList` by `cachedPathForTile_inj`), and
no write in the starting state may alias a path yet to be processed. -/
theorem foldl_processTile_char (tl : TileLoader) (env : Env) :
    ∀ (L : List (Int × Int)) (st : StartResult),
    (∀ w ∈ st.written, ∀ xy ∈ L, w.1 ≠ tl.pathOf xy) →
    L.Pairwise (fun a b => tl.pathOf a ≠ tl.pathOf b) →
    L.foldl (tl.processTile env) st =
      { tiles := st.tiles ++ L.filterMap (tl.tileResult env)
        attempted := st.attempted ++ L
        requests := st.requests ++ L.filterMap (tl.requestResult env)
        written := st.written ++ L.filterMap (tl.writeResult env)
        errors := st.errors ++ L.filterMap (tl.errorResult env) } := by
  intro L
  induction L with
  | nil => intro st _ _; simp
  | cons xy L' ih =>
    intro st hfresh hpair
    have hhead : ∀ ab ∈ L', tl.pathOf xy ≠ tl.pathOf ab :=
      (List.pairwise_cons.mp hpair).1
    rw [List.foldl_cons,
      processTile_eq tl env st xy (fun w hw => hfresh w hw xy (by simp))]
    rw [ih _ ?_ (List.pairwise_cons.mp hpair).2]
    · simp [filterMap_cons_toList, List.append_assoc]
    · intro w hw ab hab
      have hw' : w ∈ st.written ++ (tl.writeResult env xy).toList := hw
      rcases List.mem_append.mp hw' with h | h
      · exact hfresh w h ab (by simp [hab])
      · have hsome : tl.writeResult env xy = some w := by
          cases hr : tl.writeResult env xy with
          | none => simp [hr] at h
          | some v =>
            simp [hr] at h
            rw [h]
        rw [writeResult_fst hsome]
        exact hhead ab hab

theorem pathOf_pairwise (tl : TileLoader) :
    tl.attemptList.Pairwise (fun a b => tl.pathOf a ≠ tl.pathOf b) := by
  apply List.Pairwise.imp ?_ (nodup_attemptList tl)
  intro a b hne hpath
  obtain ⟨hx, hy⟩ := cachedPathForTile_inj hpath
  exact hne (Prod.ext hx hy)

/-- `start()`'s effect trace, described statically: since cache paths are
injective in the index, the loop behaves as an independent map over the
attempted indices. -/
theorem startRun_char (tl : TileLoader) (env : Env) :
    tl.startRun env =
      { tiles := tl.attemptList.filterMap (tl.tileResult env)
        attempted := tl.attemptList
        requests := tl.attemptList.filterMap (tl.requestResult env)
        written := tl.attemptList.filterMap (tl.writeResult env)
        errors := tl.attemptList.filterMap (tl.errorResult env) } := by
  unfold TileLoader.startRun
  rw [foldl_processTile_char tl env _ _ (by intro w hw; simp at hw)
    (pathOf_pairwise tl)]
  simp

/-! ## Concrete instances used by the witnesses -/

/-- A small concrete loader: zoom 1, block radius 1, center tile (1, 0). -/
noncomputable def tlW : TileLoader :=
  { latitude := 0, longitude := 0, zoom := 1, blocks := 1, center_tile_x := 1,
    center_tile_y := 0, origin_offset_x := 0, origin_offset_y := 0,
    cache_path := "cache", object_uri := "u", tiles := [] }

/-- An environment with a cold cache in which every fetch fails with 404. -/
def envW : Env :=
  { exists0 := fun _ => false
    get := fun u => { status_code := 404, text := "", url := u } }

/-- An environment in which every cache file already exists. -/
def envC : Env :=
  { exists0 := fun _ => true
    get := fun u => { status_code := 404, text := "", url := u } }

/-! ## Claim C1 -/

/-- **C1**: for a configured center tile `(cx, cy)`, zoom `z ≤ 31` (the
range the constructor admits) and block radius `R`, `start()` attempts
exactly the indices of the doubly clamped rectangle
`[max 0 (cx−R), min (2^z−1) (cx+R)] × [max 0 (cy−R), min (2^z−1) (cy+R)]`,
in row-major order (`y` ascending outermost, `x` ascending innermost). -/
theorem C1_grid_bounds_and_order (tl : TileLoader) (env : Env)
    (hz : tl.zoom ≤ 31) :
    (∀ x y : Int, (x, y) ∈ (tl.start env).2.attempted ↔
      (max 0 (tl.center_tile_x - tl.blocks) ≤ x ∧
       x ≤ min (2 ^ tl.zoom - 1) (tl.center_tile_x + tl.blocks) ∧
       max 0 (tl.center_tile_y - tl.blocks) ≤ y ∧
       y ≤ min (2 ^ tl.zoom - 1) (tl.center_tile_y + tl.blocks))) ∧
    (tl.start env).2.attempted.Pairwise rowMajorLt := by
  have hatt : (tl.start env).2.attempted = tl.attemptList := by
    show (tl.startRun env).attempted = _
    rw [startRun_char]
  rw [hatt]
  refine ⟨fun x y => ?_, pairwise_attemptList tl⟩
  rw [mem_attemptList, maxTiles_eq hz]

theorem C1_grid_bounds_and_order_witness :
    tlW.zoom ≤ 31 ∧
    ((∀ x y : Int, (x, y) ∈ (tlW.start envW).2.attempted ↔
      (max 0 (tlW.center_tile_x - tlW.blocks) ≤ x ∧
       x ≤ min (2 ^ tlW.zoom - 1) (tlW.center_tile_x + tlW.blocks) ∧
       max 0 (tlW.center_tile_y - tlW.blocks) ≤ y ∧
       y ≤ min (2 ^ tlW.zoom - 1) (tlW.center_tile_y + tlW.blocks))) ∧
    (tlW.start envW).2.attempted.Pairwise rowMajorLt) :=
  ⟨by decide, C1_grid_bounds_and_order tlW envW (by decide)⟩

/-! ## Claim C2 -/

/-- **C2**: an attempted index that is not cached and whose fetch returns a
status other than 200 contributes no `MapTile`, no cache file write, and a
`(url, status)` error report; the loop still attempts every index, and the
final tile list is exactly the successfully resolved tiles (cache hits and
HTTP-200 fetches) in iteration order. -/
theorem C2_failed_fetch (tl : TileLoader) (env : Env) (x y : Int)
    (hmem : (x, y) ∈ tl.attemptList)
    (hnc : env.exists0 (tl.cachedPathForTile x y tl.zoom) = false)
    (hst : (env.get (tl.uriForTile x y)).status_code ≠ 200) :
    (∀ t ∈ (tl.start env).1.tiles, ¬(t.x = x ∧ t.y = y)) ∧
    (∀ w ∈ (tl.start env).2.written, w.1 ≠ tl.cachedPathForTile x y tl.zoom) ∧
    ((env.get (tl.uriForTile x y)).url, (env.get (tl.uriForTile x y)).status_code)
      ∈ (tl.start env).2.errors ∧
    (tl.start env).2.attempted = tl.attemptList ∧
    (tl.start env).1.tiles = tl.attemptList.filterMap (tl.tileResult env) := by
  have hrun : tl.startRun env = _ := startRun_char tl env
  have htiles : (tl.start env).1.tiles = tl.attemptList.filterMap (tl.tileResult env) := by
    show (tl.startRun env).tiles = _
    rw [hrun]
  have hnc' : env.exists0 (tl.pathOf (x, y)) = false := hnc
  refine ⟨?_, ?_, ?_, ?_, htiles⟩
  · intro t ht ⟨htx, hty⟩
    rw [htiles] at ht
    obtain ⟨ab, habmem, habres⟩ := List.mem_filterMap.mp ht
    unfold TileLoader.tileResult at habres
    split at habres
    case isTrue hcond =>
      have ht' : t = tl.tileOf ab := by injection habres with h; rw [← h]
      have hab : ab = (x, y) := by
        have h1 : ab.1 = x := by rw [ht'] at htx; exact htx
        have h2 : ab.2 = y := by rw [ht'] at hty; exact hty
        exact Prod.ext h1 h2
      rw [hab] at hcond
      rcases hcond with h | h
      · rw [hnc'] at h; exact Bool.false_ne_true h
      · exact hst h
    case isFalse => cases habres
  · intro w hw
    have hw' : w ∈ (tl.startRun env).written := hw
    rw [hrun] at hw'
    obtain ⟨ab, habmem, habres⟩ := List.mem_filterMap.mp hw'
    intro hweq
    have hpath : tl.pathOf ab = tl.pathOf (x, y) := by
      rw [← writeResult_fst habres, hweq]; rfl
    obtain ⟨h1, h2⟩ := cachedPathForTile_inj hpath
    have hab : ab = (x, y) := Prod.ext h1 h2
    rw [hab] at habres
    unfold TileLoader.writeResult at habres
    split at habres
    case isTrue hcond => exact hst hcond.2
    case isFalse => cases habres
  · have herr : (tl.start env).2.errors = tl.attemptList.filterMap (tl.errorResult env) := by
      show (tl.startRun env).errors = _
      rw [hrun]
    rw [herr]
    apply List.mem_filterMap.mpr
    refine ⟨(x, y), hmem, ?_⟩
    unfold TileLoader.errorResult
    rw [if_pos ⟨by rw [hnc']; simp, hst⟩]
  · show (tl.startRun env).attempted = _
    rw [hrun]

theorem C2_failed_fetch_witness :
    ((0, 0) ∈ tlW.attemptList ∧
     envW.exists0 (tlW.cachedPathForTile 0 0 tlW.zoom) = false ∧
     (envW.get (tlW.uriForTile 0 0)).status_code ≠ 200) ∧
    ((∀ t ∈ (tlW.start envW).1.tiles, ¬(t.x = 0 ∧ t.y = 0)) ∧
     (∀ w ∈ (tlW.start envW).2.written, w.1 ≠ tlW.cachedPathForTile 0 0 tlW.zoom) ∧
     ((envW.get (tlW.uriForTile 0 0)).url, (envW.get (tlW.uriForTile 0 0)).status_code)
       ∈ (tlW.start envW).2.errors ∧
     (tlW.start envW).2.attempted = tlW.attemptList ∧
     (tlW.start envW).1.tiles = tlW.attemptList.filterMap (tlW.tileResult envW)) :=
  ⟨⟨by decide, rfl, by decide⟩,
   C2_failed_fetch tlW envW 0 0 (by decide) rfl (by decide)⟩

/-! ## Claim C3 -/

/-- **C3**: an attempted index whose cache file already exists triggers no
network request (the existence check precedes any fetch), and a `MapTile`
referencing the existing cached file is appended to the tile list. -/
theorem C3_cache_hit (tl : TileLoader) (env : Env) (x y : Int)
    (hmem : (x, y) ∈ tl.attemptList)
    (hc : env.exists0 (tl.cachedPathForTile x y tl.zoom) = true) :
    (∀ r ∈ (tl.start env).2.requests, r.1 ≠ (x, y)) ∧
    (⟨x, y, tl.zoom, tl.cachedPathForTile x y tl.zoom⟩ : MapTile)
      ∈ (tl.start env).1.tiles := by
  have hrun : tl.startRun env = _ := startRun_char tl env
  have hc' : env.exists0 (tl.pathOf (x, y)) = true := hc
  constructor
  · intro r hr hreq
    have hr' : r ∈ (tl.startRun env).requests := hr
    rw [hrun] at hr'
    obtain ⟨ab, habmem, habres⟩ := List.mem_filterMap.mp hr'
    unfold TileLoader.requestResult at habres
    split at habres
    case isTrue => cases habres
    case isFalse hcond =>
      have hab : ab = (x, y) := by
        have : r.1 = ab := by injection habres with h; rw [← h]
        rw [← this, hreq]
      rw [hab] at hcond
      exact hcond (by rw [hc'])
  · have htiles : (tl.start env).1.tiles = tl.attemptList.filterMap (tl.tileResult env) := by
      show (tl.startRun env).tiles = _
      rw [hrun]
    rw [htiles]
    apply List.mem_filterMap.mpr
    refine ⟨(x, y), hmem, ?_⟩
    unfold TileLoader.tileResult
    rw [if_pos (Or.inl hc')]
    rfl

theorem C3_cache_hit_witness :
    ((0, 0) ∈ tlW.attemptList ∧
     envC.exists0 (tlW.cachedPathForTile 0 0 tlW.zoom) = true) ∧
    ((∀ r ∈ (tlW.start envC).2.requests, r.1 ≠ (0, 0)) ∧
     (⟨0, 0, tlW.zoom, tlW.cachedPathForTile 0 0 tlW.zoom⟩ : MapTile)
       ∈ (tlW.start envC).1.tiles) :=
  ⟨⟨by decide, rfl⟩, C3_cache_hit tlW envC 0 0 (by decide) rfl⟩

/-! ## Claim C7 -/

/-- **C7**: for every zoom the interface admits (0–31), the clamping bound
`maxTiles` computed by the 32-bit shift `(1 << zoom) - 1` equals
`2^zoom − 1`, and the grid width `n = (unsigned)(1 << zoom)` used by
`latLonToTileCoords` equals `2^zoom`. -/
theorem C7_shift_values (zoom : Nat) (h : zoom ≤ 31) :
    maxTiles zoom = 2 ^ zoom - 1 ∧ nGrid zoom = 2 ^ zoom :=
  ⟨maxTiles_eq h, nGrid_eq h⟩

theorem C7_shift_values_witness :
    31 ≤ 31 ∧ (maxTiles 31 = 2 ^ 31 - 1 ∧ nGrid 31 = 2 ^ 31) :=
  ⟨by decide, C7_shift_values 31 (by decide)⟩

/-! ## Claim C9 -/

/-- **C9**: `start()` and `abort()` leave the configuration (source
template, latitude, longitude, zoom, block radius) and the derived center
tile index and origin offsets untouched; `abort()` empties the tile list
and is idempotent; and `start()` discards any previous tile set, so its
result does not depend on the tiles held before the call. -/
theorem C9_frame_conditions (tl : TileLoader) (env : Env) :
    ((tl.start env).1.object_uri = tl.object_uri ∧
     (tl.start env).1.latitude = tl.latitude ∧
     (tl.start env).1.longitude = tl.longitude ∧
     (tl.start env).1.zoom = tl.zoom ∧
     (tl.start env).1.blocks = tl.blocks ∧
     (tl.start env).1.center_tile_x = tl.center_tile_x ∧
     (tl.start env).1.center_tile_y = tl.center_tile_y ∧
     (tl.start env).1.origin_offset_x = tl.origin_offset_x ∧
     (tl.start env).1.origin_offset_y = tl.origin_offset_y ∧
     (tl.start env).1.cache_path = tl.cache_path) ∧
    (tl.abort.object_uri = tl.object_uri ∧
     tl.abort.latitude = tl.latitude ∧
     tl.abort.longitude = tl.longitude ∧
     tl.abort.zoom = tl.zoom ∧
     tl.abort.blocks = tl.blocks ∧
     tl.abort.center_tile_x = tl.center_tile_x ∧
     tl.abort.center_tile_y = tl.center_tile_y ∧
     tl.abort.origin_offset_x = tl.origin_offset_x ∧
     tl.abort.origin_offset_y = tl.origin_offset_y ∧
     tl.abort.cache_path = tl.cache_path) ∧
    tl.abort.tiles = [] ∧
    tl.abort.abort = tl.abort ∧
    (∀ prev : List MapTile,
      ({ tl with tiles := prev } : TileLoader).start env = tl.start env) :=
  ⟨⟨rfl, rfl, rfl, rfl, rfl, rfl, rfl, rfl, rfl, rfl⟩,
   ⟨rfl, rfl, rfl, rfl, rfl, rfl, rfl, rfl, rfl, rfl⟩,
   rfl, rfl, fun _ => rfl⟩

/-! ## Coordinate mapper -/

/-- The `x` coordinate computed by `latLonToTileCoords`:
`x = n * ((lon + 180) / 360.0)`. -/
noncomputable def mercatorX (lon : ℝ) (zoom : Nat) : ℝ :=
  (nGrid zoom : ℝ) * ((lon + 180) / 360)

/-- The `y` coordinate computed by `latLonToTileCoords`:
`y = n * (1 - (log(tan(lat_rad) + 1/cos(lat_rad)) / pi)) / 2` with
`lat_rad = lat * pi / 180`. -/
noncomputable def mercatorY (lat : ℝ) (zoom : Nat) : ℝ :=
  (nGrid zoom : ℝ) *
    (1 - Real.log (Real.tan (lat * (Real.pi / 180)) +
      1 / Real.cos (lat * (Real.pi / 180))) / Real.pi) / 2

open Classical in
/-- `TileLoader::latLonToTileCoords`: validates `zoom ≤ 31`,
`lat ∈ [-85.0511, 85.0511]`, `lon ∈ [-180, 180]` (throwing
`std::invalid_argument` otherwise, checks in this order) and returns the
fractional Web-Mercator tile coordinates. -/
noncomputable def latLonToTileCoords (lat lon : ℝ) (zoom : Nat) :
    Except TLError (ℝ × ℝ) :=
  if 31 < zoom then .error .invalidArgument
  else if lat < -85.0511 ∨ 85.0511 < lat then .error .invalidArgument
  else if lon < -180 ∨ 180 < lon then .error .invalidArgument
  else .ok (mercatorX lon zoom, mercatorY lat zoom)

open Classical in
/-- `TileLoader::insideCentreTile`: calls `latLonToTileCoords` (whose
`std::invalid_argument` propagates to the caller even though the declared
return type is a plain `bool`) and compares the floors with the stored
center tile index. -/
noncomputable def TileLoader.insideCentreTile (tl : TileLoader) (lat lon : ℝ) :
    Except TLError Bool :=
  match latLonToTileCoords lat lon tl.zoom with
  | .error e => .error e
  | .ok (x, y) => .ok (⌊x⌋ == tl.center_tile_x && ⌊y⌋ == tl.center_tile_y)

theorem latLonToTileCoords_error_iff (lat lon : ℝ) (zoom : Nat) :
    latLonToTileCoords lat lon zoom = .error .invalidArgument ↔
      (31 < zoom ∨ lat < -85.0511 ∨ 85.0511 < lat ∨ lon < -180 ∨ 180 < lon) := by
  unfold latLonToTileCoords
  split_ifs with h1 h2 h3
  · simp [h1]
  · simp only [eq_self_iff_true, true_iff]
    tauto
  · simp only [eq_self_iff_true, true_iff]
    tauto
  · constructor
    · intro h
      cases h
    · intro h
      tauto

theorem latLonToTileCoords_ok {lat lon : ℝ} {zoom : Nat} (h1 : zoom ≤ 31)
    (h2 : -85.0511 ≤ lat) (h3 : lat ≤ 85.0511)
    (h4 : -180 ≤ lon) (h5 : lon ≤ 180) :
    latLonToTileCoords lat lon zoom =
      .ok (mercatorX lon zoom, mercatorY lat zoom) := by
  unfold latLonToTileCoords
  rw [if_neg (by omega), if_neg (by push_neg; exact ⟨by linarith, by linarith⟩),
    if_neg (by push_neg; exact ⟨by linarith, by linarith⟩)]

/-! ## The constructor -/

/-- The outcome of running the `TileLoader` constructor: the directories
created on disk (in order) and either the constructed object or the
propagated exception. -/
structure CtorOutcome where
  dirs_created : List String
  result : Except TLError TileLoader

open Classical in
/-- `TileLoader::TileLoader`: derives the cache directory from a hash of
the service string (the hash function — `std::hash<std::string>` — is
implementation-defined and passed in as an oracle), creates that directory
on disk with `fs::create_directories`, and only then validates the
configuration through `latLonToTileCoords`, storing the floor of the
fractional center-tile coordinates and their fractional remainders.
The C++ code also asserts `blocks_ >= 0` and checks that the package path
(hard-coded to `"."`) is non-empty, throwing `std::runtime_error`
otherwise. -/
noncomputable def TileLoader.make (hash_fn : String → Nat) (service : String)
    (latitude longitude : ℝ) (zoom : Nat) (blocks : Int) : CtorOutcome :=
  let package_path := "."
  if package_path = "" then { dirs_created := [], result := .error .runtimeError }
  else
    let cache_path := package_path ++ "/gzsatellite/mapscache/" ++
      natDecimal (hash_fn service)
    -- fs::create_directories(cache_path_) runs here, before validation
    match latLonToTileCoords latitude longitude zoom with
    | .error e => { dirs_created := [cache_path], result := .error e }
    | .ok (x, y) =>
        { dirs_created := [cache_path]
          result := .ok
            { latitude := latitude, longitude := longitude, zoom := zoom,
              blocks := blocks,
              center_tile_x := ⌊x⌋, center_tile_y := ⌊y⌋,
              origin_offset_x := x - (⌊x⌋ : ℝ),
              origin_offset_y := y - (⌊y⌋ : ℝ),
              cache_path := cache_path, object_uri := service, tiles := [] } }

/-! ## Claim C4 -/

/-- **C4**: `latLonToTileCoords` fails — always with the
`invalid_argument` class — exactly on `zoom > 31`, `lat` outside
`[-85.0511, 85.0511]`, or `lon` outside `[-180, 180]`, and returns
normally on every input inside this domain.  (Instantiating at `zoom = 32`,
`lat = 90` or `lon = 200` gives the claim's three example failures.) -/
theorem C4_domain_check (lat lon : ℝ) (zoom : Nat) :
    (latLonToTileCoords lat lon zoom = .error .invalidArgument ↔
      (31 < zoom ∨ lat < -85.0511 ∨ 85.0511 < lat ∨ lon < -180 ∨ 180 < lon)) ∧
    ((∃ xy : ℝ × ℝ, latLonToTileCoords lat lon zoom = .ok xy) ↔
      ¬(31 < zoom ∨ lat < -85.0511 ∨ 85.0511 < lat ∨ lon < -180 ∨ 180 < lon)) := by
  refine ⟨latLonToTileCoords_error_iff lat lon zoom, ?_, ?_⟩
  · rintro ⟨xy, hxy⟩ hbad
    rw [(latLonToTileCoords_error_iff lat lon zoom).mpr hbad] at hxy
    cases hxy
  · intro h
    push_neg at h
    obtain ⟨hz, hl1, hl2, ho1, ho2⟩ := h
    exact ⟨_, latLonToTileCoords_ok (by omega) hl1 hl2 ho1 ho2⟩

/-! ## Claim C10 -/

/-- **C10**: although declared in C++ as returning a plain `bool`,
`insideCentreTile` has no value on out-of-domain input: the
`invalid_argument` error raised by `latLonToTileCoords` propagates out of
it whenever the latitude, longitude (or the configured zoom) violate the
Mercator domain. -/
theorem C10_insideCentreTile_propagates (tl : TileLoader) (lat lon : ℝ)
    (h : 31 < tl.zoom ∨ lat < -85.0511 ∨ 85.0511 < lat ∨
         lon < -180 ∨ 180 < lon) :
    tl.insideCentreTile lat lon = .error .invalidArgument := by
  unfold TileLoader.insideCentreTile
  rw [(latLonToTileCoords_error_iff lat lon tl.zoom).mpr h]

theorem C10_insideCentreTile_propagates_witness :
    (31 < tlW.zoom ∨ (90 : ℝ) < -85.0511 ∨ 85.0511 < (90 : ℝ) ∨
      (0 : ℝ) < -180 ∨ 180 < (0 : ℝ)) ∧
    tlW.insideCentreTile 90 0 = .error .invalidArgument :=
  ⟨Or.inr (Or.inr (Or.inl (by norm_num))),
   C10_insideCentreTile_propagates tlW 90 0
     (Or.inr (Or.inr (Or.inl (by norm_num))))⟩

/-! ## Claim C8 -/

/-- **C8, counterexample**: constructing with zoom 32 (a configuration
error) does surface the `invalid_argument` error and produces no object,
but the cache directory has already been created on disk by the time the
constructor throws — `fs::create_directories` runs before the
`latLonToTileCoords` validation — so partial on-disk state *does* result
from the failed construction, contrary to the claim. -/
theorem C8_cache_dir_counterexample :
    (TileLoader.make (fun _ => 0) "svc" 0 0 32 0).result
        = .error .invalidArgument ∧
    (TileLoader.make (fun _ => 0) "svc" 0 0 32 0).dirs_created
        = ["./gzsatellite/mapscache/0"] := by
  have herr : latLonToTileCoords (0 : ℝ) 0 32 = .error .invalidArgument :=
    (latLonToTileCoords_error_iff 0 0 32).mpr (Or.inl (by norm_num))
  simp only [TileLoader.make, herr]
  rw [if_neg (by decide)]
  exact ⟨rfl, by decide⟩

/-- **C8, amended**: on a configuration error (invalid zoom, latitude or
longitude) the constructor surfaces the `invalid_argument` error
immediately and no session object is created; however the cache directory
— created before validation — is the one piece of partial on-disk state a
failed construction leaves behind. -/
theorem C8_construction_failure (hash_fn : String → Nat) (service : String)
    (lat lon : ℝ) (zoom : Nat) (blocks : Int)
    (h : 31 < zoom ∨ lat < -85.0511 ∨ 85.0511 < lat ∨ lon < -180 ∨ 180 < lon) :
    (TileLoader.make hash_fn service lat lon zoom blocks).result
        = .error .invalidArgument ∧
    (TileLoader.make hash_fn service lat lon zoom blocks).dirs_created
        = ["./gzsatellite/mapscache/" ++ natDecimal (hash_fn service)] := by
  have herr : latLonToTileCoords lat lon zoom = .error .invalidArgument :=
    (latLonToTileCoords_error_iff lat lon zoom).mpr h
  simp only [TileLoader.make, herr]
  rw [if_neg (by decide)]
  exact ⟨rfl, rfl⟩

theorem C8_construction_failure_witness :
    (31 < 32 ∨ (1 : ℝ) < -85.0511 ∨ 85.0511 < (1 : ℝ) ∨
      (2 : ℝ) < -180 ∨ 180 < (2 : ℝ)) ∧
    ((TileLoader.make (fun _ => 7) "s" 1 2 32 3).result
        = .error .invalidArgument ∧
     (TileLoader.make (fun _ => 7) "s" 1 2 32 3).dirs_created
        = ["./gzsatellite/mapscache/" ++ natDecimal 7]) :=
  ⟨Or.inl (by norm_num),
   C8_construction_failure (fun _ => 7) "s" 1 2 32 3 (Or.inl (by norm_num))⟩

/-! ## Numeric facts for the Mercator bound

The latitude guard `±85.0511°` lies just inside the Web-Mercator singular
latitude `atan (sinh π) ≈ 85.05112878°`.  The key numeric fact is
`cos h < e^π · sin h` for the complementary half-angle
`h = (90 − 85.0511)·π/360`, proved through Taylor bounds at the quarter
angle `q = h/2` and a rational lower bound on `e^π`. -/

theorem quarter_angle_bounds :
    (0.0215936453 : ℝ) ≤ 4.9489 * Real.pi / 720 ∧
    (4.9489 * Real.pi / 720 : ℝ) ≤ 0.0215936523 := by
  have h1 := Real.pi_gt_d6
  have h2 := Real.pi_lt_d6
  constructor <;> nlinarith [h1, h2]

theorem sin_cos_quarter_bounds :
    (0.02159195 : ℝ) ≤ Real.sin (4.9489 * Real.pi / 720) ∧
    Real.sin (4.9489 * Real.pi / 720) ≤ 0.02159199 ∧
    (0.99976684 : ℝ) ≤ Real.cos (4.9489 * Real.pi / 720) := by
  obtain ⟨hqa, hqb⟩ := quarter_angle_bounds
  set q := 4.9489 * Real.pi / 720 with hq
  have hq0 : (0 : ℝ) ≤ q := le_trans (by norm_num) hqa
  have habs : |q| ≤ 1 := by rw [abs_of_nonneg hq0]; linarith
  have hsin := Real.sin_bound habs
  have hcos := Real.cos_bound habs
  rw [abs_of_nonneg hq0] at hsin hcos
  have hsin' := abs_le.mp hsin
  have hcos' := abs_le.mp hcos
  have h2 : q ^ 2 ≤ (0.0215936523 : ℝ) ^ 2 := pow_le_pow_left₀ hq0 hqb 2
  have h3 : q ^ 3 ≤ (0.0215936523 : ℝ) ^ 3 := pow_le_pow_left₀ hq0 hqb 3
  have h4 : q ^ 4 ≤ (0.0215936523 : ℝ) ^ 4 := pow_le_pow_left₀ hq0 hqb 4
  have h3a : (0.0215936453 : ℝ) ^ 3 ≤ q ^ 3 :=
    pow_le_pow_left₀ (by norm_num) hqa 3
  refine ⟨?_, ?_, ?_⟩
  · nlinarith [hsin'.1, h3, h4]
  · nlinarith [hsin'.2, h3a, h4]
  · nlinarith [hcos'.1, h2, h4]

theorem cos_half_lt_mul_sin_half :
    Real.cos (4.9489 * Real.pi / 360) <
      23.1406 * Real.sin (4.9489 * Real.pi / 360) := by
  obtain ⟨hs1, hs2, hc1⟩ := sin_cos_quarter_bounds
  have h2q : 4.9489 * Real.pi / 360 = 2 * (4.9489 * Real.pi / 720) := by ring
  rw [h2q, Real.sin_two_mul, Real.cos_two_mul]
  set s := Real.sin (4.9489 * Real.pi / 720)
  set c := Real.cos (4.9489 * Real.pi / 720)
  have hpyth : s ^ 2 + c ^ 2 = 1 := Real.sin_sq_add_cos_sq _
  have hs0 : (0 : ℝ) ≤ s := le_trans (by norm_num) hs1
  have hsc : (0.02159195 : ℝ) * 0.99976684 ≤ s * c :=
    mul_le_mul hs1 hc1 (by norm_num) hs0
  have hs2' : (0.02159195 : ℝ) ^ 2 ≤ s ^ 2 := pow_le_pow_left₀ (by norm_num) hs1 2
  nlinarith [hsc, hs2', hpyth]

theorem exp_pi_lower : (23.1406 : ℝ) < Real.exp Real.pi := by
  have hcube : Real.exp 3 = Real.exp 1 ^ 3 := by
    rw [show (3 : ℝ) = (3 : ℕ) * 1 by norm_num, Real.exp_nat_mul]
  have h3 : (20.08553691 : ℝ) < Real.exp 3 := by
    rw [hcube]
    calc (20.08553691 : ℝ) < 2.7182818283 ^ 3 := by norm_num
      _ < Real.exp 1 ^ 3 := by
          have := Real.exp_one_gt_d9
          have h0 : (0 : ℝ) ≤ 2.7182818283 := by norm_num
          exact pow_lt_pow_left₀ this h0 (by norm_num)
  have hfrac : (1.1521048 : ℝ) ≤ Real.exp 0.141592 := by
    have habs : |(0.141592 : ℝ)| ≤ 1 := by rw [abs_of_nonneg] <;> norm_num
    have hb := Real.exp_bound habs (n := 5) (by norm_num)
    have hsum : ∑ m ∈ Finset.range 5, (0.141592 : ℝ) ^ m / m.factorial =
        1 + 0.141592 + 0.141592 ^ 2 / 2 + 0.141592 ^ 3 / 6 + 0.141592 ^ 4 / 24 := by
      simp [Finset.sum_range_succ, Nat.factorial]
    rw [hsum] at hb
    have hb' := (abs_le.mp hb).1
    have habs5 : |(0.141592 : ℝ)| ^ 5 = (0.141592 : ℝ) ^ 5 := by
      rw [abs_of_nonneg]; norm_num
    rw [habs5] at hb'
    norm_num [Nat.factorial] at hb' ⊢
    nlinarith [hb']
  have hsplit : Real.exp (3.141592 : ℝ) = Real.exp 3 * Real.exp 0.141592 := by
    rw [← Real.exp_add]
    norm_num
  have hmid : (23.1406 : ℝ) < Real.exp 3.141592 := by
    rw [hsplit]
    nlinarith [h3, hfrac, Real.exp_pos (3 : ℝ), Real.exp_pos (0.141592 : ℝ)]
  exact hmid.trans (Real.exp_lt_exp.mpr (by linarith [Real.pi_gt_d6]))

/-- The central numeric inequality: at the complementary half-angle of the
latitude guard, `cos h < e^π sin h`. -/
theorem cos_half_lt_exp_pi_mul_sin_half :
    Real.cos (4.9489 * Real.pi / 360) <
      Real.exp Real.pi * Real.sin (4.9489 * Real.pi / 360) := by
  have hsin_pos : 0 < Real.sin (4.9489 * Real.pi / 360) := by
    apply Real.sin_pos_of_pos_of_lt_pi
    · positivity
    · nlinarith [Real.pi_pos]
  calc Real.cos (4.9489 * Real.pi / 360)
      < 23.1406 * Real.sin (4.9489 * Real.pi / 360) := cos_half_lt_mul_sin_half
    _ < Real.exp Real.pi * Real.sin (4.9489 * Real.pi / 360) := by
        apply mul_lt_mul_of_pos_right exp_pi_lower hsin_pos

theorem cos_add_sin_pos {u : ℝ} (h1 : -(Real.pi / 4) < u) (h2 : u < Real.pi / 4) :
    0 < Real.cos u + Real.sin u ∧ 0 < Real.cos u - Real.sin u := by
  have hpi := Real.pi_pos
  have hsub : Real.cos (u - Real.pi / 4) =
      (Real.cos u + Real.sin u) * (Real.sqrt 2 / 2) := by
    rw [Real.cos_sub, Real.cos_pi_div_four, Real.sin_pi_div_four]
    ring
  have hadd : Real.cos (u + Real.pi / 4) =
      (Real.cos u - Real.sin u) * (Real.sqrt 2 / 2) := by
    rw [Real.cos_add, Real.cos_pi_div_four, Real.sin_pi_div_four]
    ring
  have hp1 : 0 < Real.cos (u - Real.pi / 4) :=
    Real.cos_pos_of_mem_Ioo ⟨by linarith, by linarith⟩
  have hp2 : 0 < Real.cos (u + Real.pi / 4) :=
    Real.cos_pos_of_mem_Ioo ⟨by linarith, by linarith⟩
  have hsqrt : (0 : ℝ) < Real.sqrt 2 / 2 := by positivity
  constructor
  · nlinarith [hp1, hsqrt, hsub]
  · nlinarith [hp2, hsqrt, hadd]

theorem tan_L_half_lt :
    Real.tan (85.0511 * Real.pi / 360) <
      (Real.exp Real.pi - 1) / (Real.exp Real.pi + 1) := by
  have hpi := Real.pi_pos
  have hL : (85.0511 : ℝ) * Real.pi / 360 = Real.pi / 4 - 4.9489 * Real.pi / 360 := by
    ring
  have hc : 0 < Real.cos (4.9489 * Real.pi / 360) := by
    apply Real.cos_pos_of_mem_Ioo
    constructor <;> nlinarith
  have hs : 0 < Real.sin (4.9489 * Real.pi / 360) := by
    apply Real.sin_pos_of_pos_of_lt_pi <;> nlinarith
  have hcs : 0 < Real.cos (4.9489 * Real.pi / 360) + Real.sin (4.9489 * Real.pi / 360) := by
    linarith
  have hsqrt : Real.sqrt 2 / 2 ≠ 0 := by positivity
  have htan : Real.tan (Real.pi / 4 - 4.9489 * Real.pi / 360) =
      (Real.cos (4.9489 * Real.pi / 360) - Real.sin (4.9489 * Real.pi / 360)) /
      (Real.cos (4.9489 * Real.pi / 360) + Real.sin (4.9489 * Real.pi / 360)) := by
    rw [Real.tan_eq_sin_div_cos, Real.sin_sub, Real.cos_sub,
      Real.sin_pi_div_four, Real.cos_pi_div_four]
    have hnum : Real.sqrt 2 / 2 * Real.cos (4.9489 * Real.pi / 360) -
        Real.sqrt 2 / 2 * Real.sin (4.9489 * Real.pi / 360) =
        Real.sqrt 2 / 2 *
          (Real.cos (4.9489 * Real.pi / 360) - Real.sin (4.9489 * Real.pi / 360)) := by
      ring
    have hden : Real.sqrt 2 / 2 * Real.cos (4.9489 * Real.pi / 360) +
        Real.sqrt 2 / 2 * Real.sin (4.9489 * Real.pi / 360) =
        Real.sqrt 2 / 2 *
          (Real.cos (4.9489 * Real.pi / 360) + Real.sin (4.9489 * Real.pi / 360)) := by
      ring
    rw [hnum, hden, mul_div_mul_left _ _ hsqrt]
  have hE : (0 : ℝ) < Real.exp Real.pi + 1 := by positivity
  rw [hL, htan, div_lt_div_iff₀ hcs hE]
  nlinarith [cos_half_lt_exp_pi_mul_sin_half]

set_option maxHeartbeats 1000000 in
/-- For every latitude the guard admits, the argument of the logarithm in
`latLonToTileCoords` lies strictly between `e^{-π}` and `e^π`. -/
theorem mercator_arg_lt {lat : ℝ} (h1 : -85.0511 ≤ lat) (h2 : lat ≤ 85.0511) :
    Real.tan (lat * (Real.pi / 180)) + 1 / Real.cos (lat * (Real.pi / 180)) <
      Real.exp Real.pi ∧
    Real.exp (-Real.pi) <
      Real.tan (lat * (Real.pi / 180)) + 1 / Real.cos (lat * (Real.pi / 180)) := by
  have hpi := Real.pi_pos
  set l := lat * (Real.pi / 180) with hldef
  set u := l / 2 with hudef
  have hub : u ≤ 85.0511 * Real.pi / 360 := by
    rw [hudef, hldef]
    nlinarith
  have hlb : -(85.0511 * Real.pi / 360) ≤ u := by
    rw [hudef, hldef]
    nlinarith
  have hu4a : -(Real.pi / 4) < u := by nlinarith
  have hu4b : u < Real.pi / 4 := by nlinarith
  have hcs := cos_add_sin_pos hu4a hu4b
  have humem : u ∈ Set.Ioo (-(Real.pi / 2)) (Real.pi / 2) :=
    ⟨by nlinarith, by nlinarith⟩
  have hLmem : (85.0511 * Real.pi / 360) ∈ Set.Ioo (-(Real.pi / 2)) (Real.pi / 2) :=
    ⟨by nlinarith, by nlinarith⟩
  have hLmem' : (-(85.0511 * Real.pi / 360)) ∈ Set.Ioo (-(Real.pi / 2)) (Real.pi / 2) :=
    ⟨by nlinarith, by nlinarith⟩
  have htu_ub : Real.tan u ≤ Real.tan (85.0511 * Real.pi / 360) :=
    Real.strictMonoOn_tan.monotoneOn humem hLmem hub
  have htu_lb : Real.tan (-(85.0511 * Real.pi / 360)) ≤ Real.tan u :=
    Real.strictMonoOn_tan.monotoneOn hLmem' humem hlb
  rw [Real.tan_neg] at htu_lb
  have hT := tan_L_half_lt
  have htu1 : Real.tan u < (Real.exp Real.pi - 1) / (Real.exp Real.pi + 1) :=
    lt_of_le_of_lt htu_ub hT
  have htu2 : -((Real.exp Real.pi - 1) / (Real.exp Real.pi + 1)) < Real.tan u := by
    linarith
  have hcu : 0 < Real.cos u := Real.cos_pos_of_mem_Ioo humem
  rw [Real.tan_eq_sin_div_cos] at htu1 htu2
  have hE1 : (0 : ℝ) < Real.exp Real.pi + 1 := by positivity
  have hkey1 : 0 < (Real.exp Real.pi - 1) * Real.cos u -
      (Real.exp Real.pi + 1) * Real.sin u := by
    have h' := (div_lt_div_iff₀ hcu hE1).mp htu1
    linarith
  have hkey2 : 0 < (Real.exp Real.pi - 1) * Real.cos u +
      (Real.exp Real.pi + 1) * Real.sin u := by
    have h' := (lt_div_iff₀ hcu).mp htu2
    have h'' : -((Real.exp Real.pi - 1) * Real.cos u) / (Real.exp Real.pi + 1) <
        Real.sin u := by
      calc -((Real.exp Real.pi - 1) * Real.cos u) / (Real.exp Real.pi + 1)
          = -((Real.exp Real.pi - 1) / (Real.exp Real.pi + 1)) * Real.cos u := by
            ring
        _ < Real.sin u := h'
    rw [div_lt_iff₀ hE1] at h''
    linarith
  have hl2 : l = 2 * u := by rw [hudef]; ring
  have hsin_l : Real.sin l = 2 * Real.sin u * Real.cos u := by
    rw [hl2, Real.sin_two_mul]
  have hcos_l : Real.cos l = Real.cos u ^ 2 - Real.sin u ^ 2 := by
    rw [hl2, Real.cos_two_mul']
  have hpyth : Real.sin u ^ 2 + Real.cos u ^ 2 = 1 := Real.sin_sq_add_cos_sq u
  have hcl : 0 < Real.cos l := by
    rw [hcos_l]
    nlinarith [hcs.1, hcs.2]
  have hclne : Real.cos l ≠ 0 := ne_of_gt hcl
  have hA : Real.tan l + 1 / Real.cos l = (1 + Real.sin l) / Real.cos l := by
    rw [Real.tan_eq_sin_div_cos]
    field_simp
    ring
  rw [hA]
  constructor
  · rw [div_lt_iff₀ hcl, hsin_l, hcos_l]
    nlinarith [mul_pos hcs.1 hkey1, hpyth, Real.exp_pos Real.pi]
  · have hgt : Real.cos l < Real.exp Real.pi * (1 + Real.sin l) := by
      rw [hsin_l, hcos_l]
      nlinarith [mul_pos hcs.1 hkey2, hpyth, Real.exp_pos Real.pi]
    have hEinv : 0 < (Real.exp Real.pi)⁻¹ := inv_pos.mpr (Real.exp_pos _)
    have h3 := mul_lt_mul_of_pos_left hgt hEinv
    rw [← mul_assoc, inv_mul_cancel₀ (ne_of_gt (Real.exp_pos _)), one_mul] at h3
    rw [Real.exp_neg, lt_div_iff₀ hcl]
    exact h3

/-- For every latitude the guard admits, the `y` coordinate lies strictly
between `0` and the grid width `2^zoom`. -/
theorem mercatorY_bounds {lat : ℝ} {zoom : Nat} (hz : zoom ≤ 31)
    (h1 : -85.0511 ≤ lat) (h2 : lat ≤ 85.0511) :
    0 < mercatorY lat zoom ∧ mercatorY lat zoom < (2 : ℝ) ^ zoom := by
  obtain ⟨hup, hlo⟩ := mercator_arg_lt h1 h2
  have hApos : 0 < Real.tan (lat * (Real.pi / 180)) +
      1 / Real.cos (lat * (Real.pi / 180)) :=
    lt_trans (Real.exp_pos _) hlo
  have hlog_up : Real.log (Real.tan (lat * (Real.pi / 180)) +
      1 / Real.cos (lat * (Real.pi / 180))) < Real.pi :=
    (Real.log_lt_iff_lt_exp hApos).mpr hup
  have hlog_lo : -Real.pi < Real.log (Real.tan (lat * (Real.pi / 180)) +
      1 / Real.cos (lat * (Real.pi / 180))) :=
    (Real.lt_log_iff_exp_lt hApos).mpr hlo
  have hpi := Real.pi_pos
  unfold mercatorY
  rw [nGrid_eq hz]
  push_cast
  have hn : (0 : ℝ) < (2 : ℝ) ^ zoom := by positivity
  have hdiv_up : Real.log (Real.tan (lat * (Real.pi / 180)) +
      1 / Real.cos (lat * (Real.pi / 180))) / Real.pi < 1 :=
    (div_lt_one hpi).mpr hlog_up
  have hdiv_lo : (-1 : ℝ) < Real.log (Real.tan (lat * (Real.pi / 180)) +
      1 / Real.cos (lat * (Real.pi / 180))) / Real.pi := by
    rw [neg_lt, ← neg_div]
    exact (div_lt_one hpi).mpr (by linarith)
  constructor
  · have hfac : 0 < 1 - Real.log (Real.tan (lat * (Real.pi / 180)) +
        1 / Real.cos (lat * (Real.pi / 180))) / Real.pi := by linarith
    nlinarith [mul_pos hn hfac]
  · have hfac : 1 - Real.log (Real.tan (lat * (Real.pi / 180)) +
        1 / Real.cos (lat * (Real.pi / 180))) / Real.pi < 2 := by linarith
    nlinarith [hn, mul_pos hn hn, hfac]

/-! ## Claim C6 -/

/-- **C6, counterexample**: the claim includes `lon = 180`, but at
`(lat, lon, zoom) = (0, 180, 0)` the call succeeds with `x = 1`, whose
floor `1` exceeds `2^0 − 1 = 0` — the east edge of the antimeridian maps
to tile index `2^zoom`, outside the grid. -/
theorem C6_counterexample :
    latLonToTileCoords 0 180 0 = .ok (1, 1 / 2) ∧
    ¬((⌊(1 : ℝ)⌋ : Int) ≤ 2 ^ (0 : Nat) - 1) := by
  constructor
  · rw [latLonToTileCoords_ok (by norm_num) (by norm_num) (by norm_num)
      (by norm_num) (by norm_num)]
    have hX : mercatorX 180 0 = 1 := by
      unfold mercatorX
      rw [nGrid_eq (by norm_num)]
      norm_num
    have hY : mercatorY 0 0 = 1 / 2 := by
      unfold mercatorY
      rw [nGrid_eq (by norm_num)]
      norm_num [Real.tan_zero, Real.cos_zero, Real.log_one]
    rw [hX, hY]
  · norm_num

/-- **C6, amended**: for `lat ∈ [−85.0511, 85.0511]`,
`lon ∈ [−180, 180)` (the right endpoint excluded) and `zoom ≤ 31`,
`latLonToTileCoords` succeeds and flooring both returned coordinates gives
tile indices in `[0, 2^zoom − 1]`. -/
theorem C6_floor_bounds (lat lon : ℝ) (zoom : Nat) (hz : zoom ≤ 31)
    (hlat1 : -85.0511 ≤ lat) (hlat2 : lat ≤ 85.0511)
    (hlon1 : -180 ≤ lon) (hlon2 : lon < 180) :
    latLonToTileCoords lat lon zoom =
      .ok (mercatorX lon zoom, mercatorY lat zoom) ∧
    0 ≤ ⌊mercatorX lon zoom⌋ ∧ ⌊mercatorX lon zoom⌋ ≤ 2 ^ zoom - 1 ∧
    0 ≤ ⌊mercatorY lat zoom⌋ ∧ ⌊mercatorY lat zoom⌋ ≤ 2 ^ zoom - 1 := by
  have hok := latLonToTileCoords_ok hz hlat1 hlat2 hlon1 (le_of_lt hlon2)
  have hn : (0 : ℝ) < (2 : ℝ) ^ zoom := by positivity
  have hX : 0 ≤ mercatorX lon zoom ∧ mercatorX lon zoom < (2 : ℝ) ^ zoom := by
    unfold mercatorX
    rw [nGrid_eq hz]
    push_cast
    constructor
    · apply mul_nonneg (by positivity)
      linarith
    · nlinarith [hn]
  have hY := mercatorY_bounds hz hlat1 hlat2
  have hcast : (((2 ^ zoom : Int)) : ℝ) = (2 : ℝ) ^ zoom := by push_cast; rfl
  refine ⟨hok, Int.floor_nonneg.mpr hX.1, ?_, Int.floor_nonneg.mpr (le_of_lt hY.1), ?_⟩
  · have hlt : ⌊mercatorX lon zoom⌋ < 2 ^ zoom := by
      rw [Int.floor_lt, hcast]
      exact hX.2
    omega
  · have hlt : ⌊mercatorY lat zoom⌋ < 2 ^ zoom := by
      rw [Int.floor_lt, hcast]
      exact hY.2
    omega

theorem C6_floor_bounds_witness :
    ((1 : Nat) ≤ 31 ∧ (-85.0511 : ℝ) ≤ 0 ∧ (0 : ℝ) ≤ 85.0511 ∧
     (-180 : ℝ) ≤ 0 ∧ (0 : ℝ) < 180) ∧
    (latLonToTileCoords 0 0 1 = .ok (mercatorX 0 1, mercatorY 0 1) ∧
     0 ≤ ⌊mercatorX 0 1⌋ ∧ ⌊mercatorX 0 1⌋ ≤ 2 ^ (1 : Nat) - 1 ∧
     0 ≤ ⌊mercatorY 0 1⌋ ∧ ⌊mercatorY 0 1⌋ ≤ 2 ^ (1 : Nat) - 1) :=
  ⟨⟨by norm_num, by norm_num, by norm_num, by norm_num, by norm_num⟩,
   C6_floor_bounds 0 0 1 (by norm_num) (by norm_num) (by norm_num)
     (by norm_num) (by norm_num)⟩
